import Mathlib

/-!
Shallow embedding of the Directive Indexing & Context Assembly subsystem
(src/directiveIndexer.ts and src/contextManager.ts) and proofs of the
specification claims about it.

External collaborators (the editor's Symbol Oracle, the filesystem and the
open-document store) are modelled as explicit parameters: an `Option` symbol
tree, a `String → Bool` file-existence predicate, and pre-fetched document
contents, exactly at the points where the source awaits them.
-/

/-- vscode.Position: zero-based line and character. -/
structure Pos where
  line : Nat
  character : Nat
deriving DecidableEq, Repr

/-- vscode `Position.isAfter`: strict lexicographic order. -/
def posLtB (p q : Pos) : Bool :=
  p.line < q.line || (p.line == q.line && p.character < q.character)

/-- Non-strict lexicographic order on positions. -/
def posLeB (p q : Pos) : Bool :=
  p.line < q.line || (p.line == q.line && p.character ≤ q.character)

/-- vscode `Position.Max` of two positions. -/
def posMax (p q : Pos) : Pos := if posLtB p q then q else p

/-- vscode `Position.Min` of two positions. -/
def posMin (p q : Pos) : Pos := if posLtB q p then q else p

/-- vscode.Range; the source's `range.end` is the field `stop` here
(`end` is a reserved word in Lean). -/
structure Rng where
  start : Pos
  stop : Pos
deriving DecidableEq, Repr

/-- vscode `Range.intersection`: the overlap of two ranges, or `none` when the
greater start is strictly after the smaller end. -/
def rangeIntersection (a b : Rng) : Option Rng :=
  let s := posMax a.start b.start
  let e := posMin a.stop b.stop
  if posLtB e s then none else some ⟨s, e⟩

/-- vscode.DocumentSymbol restricted to the fields the subsystem reads:
the defining range and the children. -/
inductive DocSymbol where
  | mk (range : Rng) (children : List DocSymbol)

def DocSymbol.range : DocSymbol → Rng
  | .mk r _ => r

def DocSymbol.children : DocSymbol → List DocSymbol
  | .mk _ cs => cs

mutual
/-- One step of `flatten` from `nextTopSymbolRange`:
`arr.flatMap((s) => [s, ...flatten(s.children)])`, single symbol. -/
def flattenSym : DocSymbol → List DocSymbol
  | .mk r cs => .mk r cs :: flattenList cs

/-- `flatten` from `nextTopSymbolRange`, list form (pre-order traversal). -/
def flattenList : List DocSymbol → List DocSymbol
  | [] => []
  | s :: ss => flattenSym s ++ flattenList ss
end

/-- A text document: file name plus the list of line texts
(`doc.lineAt(i).text`, without line terminators). -/
structure Doc where
  fileName : String
  lines : List String
deriving Repr

/-- `doc.lineCount`. -/
def Doc.lineCount (doc : Doc) : Nat := doc.lines.length

/-- `doc.lineAt(i).text`. -/
def Doc.line (doc : Doc) (i : Nat) : String := doc.lines.getD i ""

-- ── character-level utilities for the comment-tag patterns ──

/-- JS `\s` restricted to the characters that can occur inside a line. -/
def isWsChar (c : Char) : Bool := c == ' ' || c == '\t'

/-- JS `String.prototype.trim` on a line: drop whitespace at both ends. -/
def trimStr (s : String) : String :=
  String.mk (((s.toList.dropWhile isWsChar).reverse.dropWhile isWsChar).reverse)

/-- Does the pattern occur as a leading run of the text? -/
def leadMatch : List Char → List Char → Bool
  | [], _ => true
  | _ :: _, [] => false
  | p :: ps, c :: cs => p == c && leadMatch ps cs

/-- Does the pattern occur anywhere inside the text? -/
def occursIn (pat : List Char) : List Char → Bool
  | [] => leadMatch pat []
  | c :: cs => leadMatch pat (c :: cs) || occursIn pat cs

/-- JS `String.prototype.includes`. -/
def containsSub (s pat : String) : Bool := occursIn pat.toList s.toList

/-- Match a literal character sequence and return the remainder. -/
def dropLit : List Char → List Char → Option (List Char)
  | [], rest => some rest
  | _ :: _, [] => none
  | p :: ps, c :: cs => if p == c then dropLit ps cs else none

/-- The comment-marker alternation `(?:\/\/|#|--)`: if the text begins with
one of the three markers, return the remainder. -/
def markerTail? : List Char → Option (List Char)
  | '/' :: '/' :: rest => some rest
  | '#' :: rest => some rest
  | '-' :: '-' :: rest => some rest
  | _ => none

/-- Greedy `\s*`. -/
def skipWs (cs : List Char) : List Char := cs.dropWhile isWsChar

-- ── the three directive patterns of DirectiveIndexer.scan ──

/-- `LINE_TAG = /(?:\/\/|#|--)\s*@ai:\s*(.+)$/` tried at one start position;
returns the text captured by `(.+)$` (before the later `.trim()`).
`\s*(.+)$` succeeds exactly when at least one character follows `@ai:`,
and after trimming the capture equals the trimmed remainder. -/
def lineTagAt (cs : List Char) : Option (List Char) :=
  (markerTail? cs).bind fun r1 =>
    (dropLit "@ai:".toList (skipWs r1)).bind fun r2 =>
      if r2.isEmpty then none else some r2

/-- `LINE_TAG.exec`: leftmost start position where the pattern matches. -/
def lineTagSearch : List Char → Option (List Char)
  | [] => none
  | c :: cs =>
    match lineTagAt (c :: cs) with
    | some r => some r
    | none => lineTagSearch cs

/-- `m[1].trim()` for a line-form directive, or `none` when `LINE_TAG`
does not match the line. -/
def lineSearch (s : String) : Option String :=
  (lineTagSearch s.toList).map fun r => trimStr (String.mk r)

/-- A character allowed by the id charset `[a-f0-9-]`. -/
def isIdChar (c : Char) : Bool :=
  ('a' ≤ c && c ≤ 'f') || ('0' ≤ c && c ≤ '9') || c == '-'

/-- The optional group `(?:\s+id="([a-f0-9-]+)")?` of `PROMPT_TAG`, tried
immediately after the closing quote of the prompt; `none` when the group
fails (the overall match still succeeds). -/
def idGroup (cs : List Char) : Option String :=
  match cs with
  | [] => none
  | c :: _ =>
    if isWsChar c then
      match dropLit "id=\"".toList (skipWs cs) with
      | none => none
      | some r =>
        let idChars := r.takeWhile isIdChar
        if idChars.isEmpty then none
        else
          match r.drop idChars.length with
          | '"' :: _ => some (String.mk idChars)
          | _ => none
    else none

/-- `PROMPT_TAG = /(?:\/\/|#|--)\s*@ai\s+prompt="([^"]+)"(?:\s+id="([a-f0-9-]+)")?/`
tried at one start position; returns the prompt capture and the optional id. -/
def promptTagAt (cs : List Char) : Option (String × Option String) :=
  (markerTail? cs).bind fun r1 =>
    let r2 := skipWs r1
    (dropLit "@ai".toList r2).bind fun r3 =>
      match r3 with
      | [] => none
      | c :: _ =>
        if isWsChar c then
          (dropLit "prompt=\"".toList (skipWs r3)).bind fun r4 =>
            let promptChars := r4.takeWhile (fun ch => ch ≠ '"')
            if promptChars.isEmpty then none
            else
              match r4.drop promptChars.length with
              | '"' :: r5 => some (String.mk promptChars, idGroup r5)
              | _ => none
        else none

/-- `PROMPT_TAG.exec`: leftmost start position where the pattern matches. -/
def promptTagSearch : List Char → Option (String × Option String)
  | [] => none
  | c :: cs =>
    match promptTagAt (c :: cs) with
    | some r => some r
    | none => promptTagSearch cs

/-- Prompt-form match for a whole line. -/
def promptSearch (s : String) : Option (String × Option String) :=
  promptTagSearch s.toList

/-- `GLOBAL_TAG = /(?:\/\/|#|--)\s*@ai-global:\s*$/` tried at one position:
after the literal only whitespace may remain to the end of the line. -/
def globalTagAt (cs : List Char) : Bool :=
  match markerTail? cs with
  | none => false
  | some r1 =>
    match dropLit "@ai-global:".toList (skipWs r1) with
    | none => false
    | some r2 => (skipWs r2).isEmpty

/-- `GLOBAL_TAG.test`: does the pattern match at any start position? -/
def globalTagSearch : List Char → Bool
  | [] => false
  | c :: cs => globalTagAt (c :: cs) || globalTagSearch cs

/-- Global-form test for a whole line. -/
def globalSearch (s : String) : Bool := globalTagSearch s.toList

/-- `/^\s*(?:\/\/|#|--)\s?/.test(l)`: the line is comment-marked. -/
def commentMarked (s : String) : Bool :=
  (markerTail? (skipWs s.toList)).isSome

/-- `l.replace(/^\s*(?:\/\/|#|--)\s?/, "")`: strip indentation, the marker and
at most one following whitespace character; lines without a marker are
returned unchanged. -/
def stripMarker (s : String) : String :=
  match markerTail? (skipWs s.toList) with
  | none => s
  | some r =>
    match r with
    | c :: rest => if isWsChar c then String.mk rest else String.mk r
    | [] => String.mk r

example : lineSearch "// @ai:  make it fast " = some "make it fast" := by decide
example : lineSearch "let x = 1 // @ai: mark" = some "mark" := by decide
example : lineSearch "// @ai-global:" = none := by decide
example : promptSearch "// @ai prompt=\"do it\" id=\"ab-12\"" =
    some ("do it", some "ab-12") := by decide
example : promptSearch "# @ai prompt=\"do it\"" = some ("do it", none) := by decide
example : promptSearch "// @ai: plain" = none := by decide
example : globalSearch "  -- @ai-global:  " = true := by decide
example : globalSearch "-- @ai-global: x" = false := by decide
example : commentMarked "   // hello" = true := by decide
example : commentMarked "let x = 1 // hello" = false := by decide
example : stripMarker "  //  body" = " body" := by decide
example : stripMarker "# body" = "body" := by decide

-- ── DirectiveIndexer (src/directiveIndexer.ts) ──

/-- A scanned directive record. -/
structure Directive where
  file : String
  range : Rng
  text : String
  id : Option String
deriving DecidableEq, Repr

/-- `nextTopSymbolRange`: flatten the Symbol Oracle's tree and take the range
of the first symbol whose start line is strictly after `fromLine`; `none`
when the oracle is unavailable (`!symbols`) or no such symbol exists. -/
def nextTopSymbolRange (oracle : Option (List DocSymbol)) (fromLine : Nat) :
    Option Rng :=
  match oracle with
  | none => none
  | some symbols =>
    ((flattenList symbols).find? fun s => decide (fromLine < s.range.start.line)).map
      DocSymbol.range

/-- The range bound to a line/prompt directive on line `i`:
`(await nextTopSymbolRange(doc, i)) ?? new Range(i + 1, 0, doc.lineCount, 0)`. -/
def bindRange (doc : Doc) (oracle : Option (List DocSymbol)) (i : Nat) : Rng :=
  (nextTopSymbolRange oracle i).getD ⟨⟨i + 1, 0⟩, ⟨doc.lineCount, 0⟩⟩

/-- The body of the `scan` loop of `DirectiveIndexer`, with explicit fuel (the
source's `for` loop advances `i` by at least one each iteration, so
`doc.lineCount + 1` fuel reproduces it exactly).  `gen` supplies the values of
successive `crypto.randomUUID()` calls and `cnt` counts the calls made so far.
After a global block the source sets `i = j` and the loop increment then moves
to `j + 1`, where `j` is the first non-comment-marked line. -/
def scanLoop (doc : Doc) (oracle : Option (List DocSymbol)) (gen : Nat → String) :
    Nat → Nat → Nat → List Directive
  | 0, _, _ => []
  | fuel + 1, i, cnt =>
    if i < doc.lineCount then
      let text := doc.line i
      match promptSearch text with
      | some (prompt, rawId) =>
        let dirId := rawId.getD (gen cnt)
        let cnt' := if rawId.isSome then cnt else cnt + 1
        { file := doc.fileName, range := bindRange doc oracle i,
          text := prompt, id := some dirId }
          :: scanLoop doc oracle gen fuel (i + 1) cnt'
      | none =>
        match lineSearch text with
        | some t =>
          { file := doc.fileName, range := bindRange doc oracle i,
            text := t, id := none }
            :: scanLoop doc oracle gen fuel (i + 1) cnt
        | none =>
          if globalSearch text then
            let body := (doc.lines.drop (i + 1)).takeWhile commentMarked
            let j := i + 1 + body.length
            { file := doc.fileName, range := ⟨⟨0, 0⟩, ⟨0, 0⟩⟩,
              text := String.intercalate "\n" (body.map stripMarker), id := none }
              :: scanLoop doc oracle gen fuel (j + 1) cnt
          else
            scanLoop doc oracle gen fuel (i + 1) cnt
    else []

/-- `DirectiveIndexer.scan(doc)`: the directive list computed for a document. -/
def scanDoc (doc : Doc) (oracle : Option (List DocSymbol)) (gen : Nat → String) :
    List Directive :=
  scanLoop doc oracle gen (doc.lineCount + 1) 0 0

/-- The indexer's `map` field: file path to stored directive list. -/
def IndexerMap : Type := String → Option (List Directive)

/-- A freshly constructed indexer: no file has ever been indexed. -/
def emptyIndexer : IndexerMap := fun _ => none

/-- `this.map.set(doc.fileName, directives)` at the end of `scan`. -/
def indexerSet (m : IndexerMap) (file : String) (dirs : List Directive) :
    IndexerMap :=
  fun f => if f = file then some dirs else m f

/-- `index(doc)`: scan the document and replace its stored list. -/
def indexerIndex (m : IndexerMap) (doc : Doc) (oracle : Option (List DocSymbol))
    (gen : Nat → String) : IndexerMap :=
  indexerSet m doc.fileName (scanDoc doc oracle gen)

/-- `get(uri, id)`: the first directive with the id, or the Not-Found error. -/
def indexerGet (m : IndexerMap) (fsPath : String) (id : String) :
    Except String (String × Rng) :=
  match ((m fsPath).getD []).find? (fun d => d.id == some id) with
  | some d => .ok (d.text, d.range)
  | none => .error ("Directive with id " ++ id ++ " not found in " ++ fsPath)

/-- `getAllDirectives(uri)`: all records as `{prompt, range, id}` triples. -/
def getAllDirectives (m : IndexerMap) (fsPath : String) :
    List (String × Rng × Option String) :=
  ((m fsPath).getD []).map fun d => (d.text, d.range, d.id)

/-- `getAllForRange(file, range)`: texts of directives whose range intersects
the query range (a returned `Range` object is always truthy in JS, even when
empty, so the filter keeps exactly the `isSome` intersections). -/
def getAllForRange (m : IndexerMap) (file : String) (range : Rng) : List String :=
  (((m file).getD []).filter fun d => (rangeIntersection d.range range).isSome).map
    fun d => d.text

/-- `getForFile(file)`: all directive texts for a file. -/
def getForFile (m : IndexerMap) (file : String) : List String :=
  ((m file).getD []).map fun d => d.text

-- ── EnhancedContextManager (src/contextManager.ts) ──

/-- JS `String.prototype.split("\n")` at the character level. -/
def splitOnChar (sep : Char) : List Char → List (List Char)
  | [] => [[]]
  | c :: cs =>
    let rest := splitOnChar sep cs
    if c == sep then [] :: rest
    else
      match rest with
      | r :: rs => (c :: r) :: rs
      | [] => [[c]]

/-- `content.split("\n")`. -/
def splitLines (s : String) : List String :=
  (splitOnChar '\n' s.toList).map String.mk

/-- ASCII lowering of one character (JS `toLowerCase` on the inputs the
subsystem handles). -/
def lowerChar (c : Char) : Char :=
  if 'A' ≤ c && c ≤ 'Z' then Char.ofNat (c.toNat + 32) else c

/-- JS `String.prototype.toLowerCase`. -/
def lowerStr (s : String) : String := String.mk (s.toList.map lowerChar)

/-- The `type` field of a ContextItem; constructors `imported`/`exported`
stand for the source strings "import"/"export" (reserved words in Lean). -/
inductive CtxType where
  | current | imported | exported | related | test
deriving DecidableEq, Repr

/-- ContextItem: one unit admitted into the prompt payload.  `importance` is a
JS number, modelled as a rational. -/
structure ContextItem where
  file : String
  range : Rng
  content : String
  importance : ℚ
  type : CtxType
  symbols : Option (List DocSymbol)

/-- `estimateTokens`: `Math.ceil(text.length / 4)`. -/
def estimateTokens (text : String) : Nat := (text.length + 3) / 4

/-- `calculateTokens`: `items.reduce((total, item) => total + estimateTokens(item.content), 0)`. -/
def calculateTokens (items : List ContextItem) : Nat :=
  items.foldl (fun total item => total + estimateTokens item.content) 0

/-- `shouldIncludeContext(item, context)` over the already-admitted items. -/
def shouldIncludeContext (item : ContextItem) (ctxItems : List ContextItem) : Bool :=
  if ctxItems.any fun existing => existing.file == item.file then false
  else if mkRat 3 10 < item.importance then true
  else if item.type == .test &&
      ctxItems.any (fun i => containsSub (lowerStr i.content) "test") then true
  else false

/-- `truncateContent(item, maxTokens)`.  `approximateLines * 6 / 10` and
`* 4 / 10` render `Math.floor(approximateLines * 0.6)` / `* 0.4`;
`lines.slice(-keepEnd)` is `drop (length - keepEnd)` (`keepEnd ≥ 4` whenever
this function is reached, since `maxTokens ≥ 100`). -/
def truncateContent (item : ContextItem) (maxTokens : Nat) : Option ContextItem :=
  if maxTokens < 100 then none
  else
    let lines := splitLines item.content
    let approximateLines := maxTokens / 10
    if lines.length ≤ approximateLines then some item
    else
      let keepStart := approximateLines * 6 / 10
      let keepEnd := approximateLines * 4 / 10
      let truncatedContent := String.intercalate "\n"
        (lines.take keepStart ++ ["// ... (content truncated) ..."]
          ++ lines.drop (lines.length - keepEnd))
      some { item with content := truncatedContent }

/-- One insertion step of the stable descending sort. -/
def insertDesc (x : ContextItem) : List ContextItem → List ContextItem
  | [] => [x]
  | y :: ys => if y.importance ≤ x.importance then x :: y :: ys else y :: insertDesc x ys

/-- `items.sort((a, b) => b.importance - a.importance)`: ECMAScript sort is
stable and this comparator is a total preorder, so the result is the unique
stable descending order, here computed by stable insertion sort. -/
def sortDesc : List ContextItem → List ContextItem
  | [] => []
  | x :: xs => insertDesc x (sortDesc xs)

/-- The admission loop of `optimizeContextForTokenLimit` after the sort:
greedy fit, with the truncate-or-drop branch for importance above 0.8
(`break` after a successful truncation ends the loop). -/
def optimizeGo (maxTokens : Nat) : List ContextItem → Nat → List ContextItem
  | [], _ => []
  | item :: rest, tokenCount =>
    let itemTokens := estimateTokens item.content
    if tokenCount + itemTokens ≤ maxTokens then
      item :: optimizeGo maxTokens rest (tokenCount + itemTokens)
    else if mkRat 8 10 < item.importance then
      match truncateContent item (maxTokens - tokenCount) with
      | some truncated => [truncated]
      | none => optimizeGo maxTokens rest tokenCount
    else optimizeGo maxTokens rest tokenCount

/-- `optimizeContextForTokenLimit(items)` with the manager's `maxTokens`. -/
def optimizeContextForTokenLimit (maxTokens : Nat) (items : List ContextItem) :
    List ContextItem :=
  optimizeGo maxTokens (sortDesc items) 0

/-- `getCurrentFileContext`: the current-file item.  The editor-supplied
pieces (file name, chosen range, its text, the document symbols) are
parameters; importance and type are fixed by the source. -/
def getCurrentFileContext (file : String) (range : Rng) (content : String)
    (symbols : Option (List DocSymbol)) : ContextItem :=
  { file := file, range := range, content := content,
    importance := 1, type := .current,
    symbols := symbols.map fun ss =>
      ss.filter fun s => (rangeIntersection s.range range).isSome }

/-- `getFileContext(file, intent)` for a successfully opened document:
base importance 0.5, +0.3 when the non-empty intent occurs case-insensitively
in the text, +0.2 when the file has directives; type `test` when the path
contains ".test." or ".spec.". -/
def getFileContext (file : String) (lineCount : Nat) (content : String)
    (intent : String) (symbols : Option (List DocSymbol))
    (directiveCount : Nat) : ContextItem :=
  let importance : ℚ :=
    mkRat 1 2
      + (if intent ≠ "" ∧ containsSub (lowerStr content) (lowerStr intent) = true
          then mkRat 3 10 else 0)
      + (if 0 < directiveCount then mkRat 1 5 else 0)
  let ty : CtxType :=
    if containsSub file ".test." || containsSub file ".spec." then .test else .related
  { file := file, range := ⟨⟨0, 0⟩, ⟨lineCount, 0⟩⟩, content := content,
    importance := importance, type := ty, symbols := symbols }

/-- `getFileContextForRange(file, range, intent)` for a successfully opened
document: base importance 0.6, +0.2 for an intent occurrence, +0.2 for
directives; type `related`; range already expanded to the enclosing symbol. -/
def getFileContextForRange (file : String) (expandedRange : Rng) (content : String)
    (intent : String) (symbols : Option (List DocSymbol))
    (directiveCount : Nat) : ContextItem :=
  let importance : ℚ :=
    mkRat 3 5
      + (if intent ≠ "" ∧ containsSub (lowerStr content) (lowerStr intent) = true
          then mkRat 1 5 else 0)
      + (if 0 < directiveCount then mkRat 1 5 else 0)
  { file := file, range := expandedRange, content := content,
    importance := importance, type := .related, symbols := symbols }

/-- ConversationTurn. -/
structure ConversationTurn where
  request : String
  response : String
  filesModified : List String
  timestamp : Nat
deriving DecidableEq, Repr

/-- `addConversationTurn`: append, then `slice(-10)` when the length
exceeds 10. -/
def addConversationTurn (history : List ConversationTurn) (t : ConversationTurn) :
    List ConversationTurn :=
  let h := history ++ [t]
  if 10 < h.length then h.drop (h.length - 10) else h

/-- `getRecentlyModifiedContext`: for each of the first 3 recently modified
files, the `getFileContext` result (a parameter here, `none` when the file
could not be read) with importance scaled by 0.7. -/
def getRecentlyModifiedContext (fetched : List (Option ContextItem)) :
    List ContextItem :=
  (fetched.take 3).foldr
    (fun oc acc =>
      match oc with
      | some c => { c with importance := c.importance * mkRat 7 10 } :: acc
      | none => acc) []

/-- Admission of a candidate stream through `shouldIncludeContext`, applying
the source's post-check mutation (`type`/importance adjustment) before the
push. -/
def admitCands (ctx : List ContextItem) (cands : List (Option ContextItem))
    (adjust : ContextItem → ContextItem) : List ContextItem :=
  cands.foldl
    (fun acc oc =>
      match oc with
      | some c => if shouldIncludeContext c acc then acc ++ [adjust c] else acc
      | none => acc) ctx

/-- The collaborator-produced inputs of one `collectEnhancedContext` run:
the current-file item (step 1), the `getFileContextForRange` results for the
found definitions and references (step 2), the `getFileContext` results for
the related files (step 3), and the `getRecentlyModifiedContext` items
(step 4). -/
structure AssembleEnv where
  currentContext : Option ContextItem
  defResults : List (Option ContextItem)
  refResults : List (Option ContextItem)
  relatedResults : List (Option ContextItem)
  recentItems : List ContextItem

/-- ProjectContext as the claims read it: the admitted items, the recomputed
token total, and the last 3 conversation turns (`workspaceInfo` is
environment data not involved in any claim). -/
structure ProjectContext where
  items : List ContextItem
  totalTokens : Nat
  conversationHistory : List ConversationTurn

/-- `collectEnhancedContext(intent, targetFile)`: admit the current item, the
definition items (type set to "import", +0.3), the first 3 reference items
(type "related", +0.1), the related-file items, then append the
recently-modified items unchecked; finally sort/fit within the token budget
and recompute `totalTokens`. -/
def collectEnhancedContext (maxTokens : Nat) (env : AssembleEnv)
    (history : List ConversationTurn) : ProjectContext :=
  let items0 : List ContextItem :=
    match env.currentContext with
    | some c => [c]
    | none => []
  let items1 :=
    if env.currentContext.isSome then
      admitCands items0 env.defResults
        (fun c => { c with type := .imported, importance := c.importance + mkRat 3 10 })
    else items0
  let items2 :=
    if env.currentContext.isSome then
      admitCands items1 (env.refResults.take 3)
        (fun c => { c with type := .related, importance := c.importance + mkRat 1 10 })
    else items1
  let items3 := admitCands items2 env.relatedResults (fun c => c)
  let items4 := items3 ++ env.recentItems
  let finalItems := optimizeContextForTokenLimit maxTokens items4
  { items := finalItems, totalTokens := calculateTokens finalItems,
    conversationHistory := history.drop (history.length - 3) }

-- ── resolveImportPath (src/contextManager.ts, dependency resolver) ──

/-- JS `String.prototype.startsWith`. -/
def strStartsWith (s pat : String) : Bool := leadMatch pat.toList s.toList

/-- Split a path on `/` separators. -/
def splitSlash (s : String) : List String :=
  (splitOnChar '/' s.toList).map String.mk

/-- node `path.dirname` for the absolute paths the resolver receives. -/
def pathDirname (p : String) : String :=
  let parts := splitSlash p
  if parts.length ≤ 1 then "." else String.intercalate "/" parts.dropLast

/-- node `path.resolve(basePath, importPath)` for an absolute base: join the
segments and normalize `.`, `..` and empty segments. -/
def resolvePath (basePath importPath : String) : String :=
  let segs := splitSlash basePath ++ splitSlash importPath
  let acc := segs.foldl
    (fun acc seg =>
      if seg = "" ∨ seg = "." then acc
      else if seg = ".." then acc.dropLast
      else acc ++ [seg]) []
  "/" ++ String.intercalate "/" acc

/-- node `path.join(resolved, name)` as used on an already-normalized path. -/
def pathJoin (a b : String) : String := a ++ "/" ++ b

/-- The extension list of the direct-file loop. -/
def directExts : List String := [".ts", ".tsx", ".js", ".jsx", ".json"]

/-- The extension list of the index-file loop. -/
def indexExts : List String := [".ts", ".tsx", ".js", ".jsx"]

/-- `resolveImportPath(importPath, fromFile)` over a filesystem modelled as a
stat-success predicate: relative specifiers try the direct extensions, then
the index files; the first hit wins; bare specifiers resolve to nothing. -/
def resolveImportPath (fs : String → Bool) (importPath fromFile : String) :
    Option String :=
  if strStartsWith importPath "." then
    let basePath := pathDirname fromFile
    let resolved := resolvePath basePath importPath
    match (directExts.map fun ext => resolved ++ ext).find? fs with
    | some fullPath => some fullPath
    | none => (indexExts.map fun ext => pathJoin resolved ("index" ++ ext)).find? fs
  else none

-- ── shared helper lemmas ──

/-- One `addConversationTurn` call keeps the history within the 10-turn bound. -/
theorem addConversationTurn_length_le (h : List ConversationTurn)
    (t : ConversationTurn) (hh : h.length ≤ 10) :
    (addConversationTurn h t).length ≤ 10 := by
  unfold addConversationTurn
  by_cases h10 : 10 < (h ++ [t]).length
  · simp only [h10, if_true, List.length_drop]
    omega
  · simp only [h10, if_false]
    simp only [List.length_append, List.length_cons, List.length_nil] at h10 ⊢
    omega

/-- One `addConversationTurn` call is a drop-from-the-front of the append. -/
theorem addConversationTurn_eq_drop (h : List ConversationTurn)
    (t : ConversationTurn) :
    addConversationTurn h t = (h ++ [t]).drop ((h ++ [t]).length - 10) := by
  unfold addConversationTurn
  by_cases h10 : 10 < (h ++ [t]).length
  · simp only [h10, if_true]
  · simp only [h10, if_false]
    have : (h ++ [t]).length - 10 = 0 := by omega
    rw [this, List.drop_zero]

/-- Folding `addConversationTurn` keeps exactly the last 10 of everything
recorded so far, in order. -/
theorem foldl_addConversationTurn (ts : List ConversationTurn) :
    ∀ h : List ConversationTurn, h.length ≤ 10 →
      ts.foldl addConversationTurn h = (h ++ ts).drop ((h ++ ts).length - 10) := by
  induction ts with
  | nil =>
    intro h hh
    simp only [List.foldl_nil, List.append_nil]
    have : h.length - 10 = 0 := by omega
    rw [this, List.drop_zero]
  | cons t ts ih =>
    intro h hh
    have step := addConversationTurn_eq_drop h t
    have hlen := addConversationTurn_length_le h t hh
    have hfold : (t :: ts).foldl addConversationTurn h
        = ts.foldl addConversationTurn (addConversationTurn h t) := rfl
    rw [hfold, ih _ hlen, step]
    have hk : (h ++ [t]).length - 10 ≤ (h ++ [t]).length := Nat.sub_le _ _
    rw [← List.drop_append_of_le_length hk, List.drop_drop]
    have hassoc : (h ++ [t]) ++ ts = h ++ t :: ts := by simp
    rw [hassoc]
    congr 1
    simp only [List.length_drop, List.length_append, List.length_cons,
      List.length_nil] at *
    omega

-- ── claim C7 ──

/-- C7: for every sequence of record calls (`addConversationTurn`), the
Ledger's history length never exceeds 10, eviction removes the oldest turns
first (the retained history is always the drop-from-the-front of everything
recorded), and after exactly 11 record calls the retained history is exactly
the last 10 recorded turns in their original chronological order. -/
theorem claim_C7_ledger_bound (ts : List ConversationTurn) :
    (ts.foldl addConversationTurn []).length ≤ 10
    ∧ ts.foldl addConversationTurn [] = ts.drop (ts.length - 10)
    ∧ (ts.length = 11 → ts.foldl addConversationTurn [] = ts.drop 1) := by
  have h := foldl_addConversationTurn ts [] (by simp)
  simp only [List.nil_append] at h
  refine ⟨?_, h, ?_⟩
  · rw [h]
    simp only [List.length_drop]
    omega
  · intro h11
    rw [h, h11]

/-- Witness for C7 at a concrete sequence of 11 recorded turns. -/
theorem claim_C7_ledger_bound_witness :
    ((List.range 11).map fun k => ConversationTurn.mk (toString k) "" [] k).foldl
        addConversationTurn []
      = ((List.range 11).map fun k => ConversationTurn.mk (toString k) "" [] k).drop 1 :=
  (claim_C7_ledger_bound
    ((List.range 11).map fun k => ConversationTurn.mk (toString k) "" [] k)).2.2
    (by decide)

-- ── claim C8 ──

/-- A filesystem where both the direct `.ts` file and the `index.ts` file
exist. -/
def fsBoth : String → Bool := fun p =>
  p == "/proj/src/utils.ts" || p == "/proj/src/utils/index.ts"

/-- A filesystem where only the `index.ts` file exists. -/
def fsIndexOnly : String → Bool := fun p => p == "/proj/src/utils/index.ts"

/-- A filesystem where no candidate exists. -/
def fsNeither : String → Bool := fun _ => false

/-- C8: `resolveImportPath` tries the fixed extension list directly before the
index filenames and returns the first filesystem hit: `./utils` from
`/proj/src/a.ts` gives `/proj/src/utils.ts` when that file exists (even when
the index file also exists), `/proj/src/utils/index.ts` when only that
exists, and no resolution when neither exists; every non-relative (bare)
specifier yields no resolution. -/
theorem claim_C8_resolver :
    (∀ (fs : String → Bool) (spec fromFile : String),
      strStartsWith spec "." = false → resolveImportPath fs spec fromFile = none)
    ∧ resolveImportPath fsBoth "./utils" "/proj/src/a.ts" = some "/proj/src/utils.ts"
    ∧ resolveImportPath fsIndexOnly "./utils" "/proj/src/a.ts"
        = some "/proj/src/utils/index.ts"
    ∧ resolveImportPath fsNeither "./utils" "/proj/src/a.ts" = none := by
  refine ⟨?_, by decide, by decide, by decide⟩
  intro fs spec fromFile h
  simp [resolveImportPath, h]

/-- Witness for C8's bare-specifier hypothesis at a concrete specifier. -/
theorem claim_C8_resolver_witness :
    resolveImportPath fsNeither "lodash" "/proj/src/a.ts" = none :=
  claim_C8_resolver.1 fsNeither "lodash" "/proj/src/a.ts" (by decide)

-- ── claim C10 ──

/-- C10: for a never-indexed file, `getAllForRange`, `getForFile` and
`getAllDirectives` return the empty list rather than signalling an error, and
`get` signals the Not-Found error; in general `get` errors exactly when no
directive in the file's current list carries the given id. -/
theorem claim_C10_unindexed (file : String) (q : Rng) (id : String) :
    getAllForRange emptyIndexer file q = []
    ∧ getForFile emptyIndexer file = []
    ∧ getAllDirectives emptyIndexer file = []
    ∧ (∃ msg, indexerGet emptyIndexer file id = .error msg)
    ∧ (∀ m : IndexerMap,
        (∃ msg, indexerGet m file id = .error msg) ↔
          ∀ d ∈ (m file).getD [], d.id ≠ some id) := by
  refine ⟨rfl, rfl, rfl, ⟨_, rfl⟩, ?_⟩
  intro m
  constructor
  · rintro ⟨msg, hmsg⟩ d hd hid
    unfold indexerGet at hmsg
    cases hfind : ((m file).getD []).find? (fun d => d.id == some id) with
    | some d' => rw [hfind] at hmsg; exact Except.noConfusion hmsg
    | none =>
      have := List.find?_eq_none.mp hfind d hd
      simp only [hid, beq_self_eq_true, not_true_eq_false] at this
  · intro hall
    have hfind : ((m file).getD []).find? (fun d => d.id == some id) = none := by
      apply List.find?_eq_none.mpr
      intro d hd
      simpa using hall d hd
    exact ⟨_, by unfold indexerGet; rw [hfind]⟩

/-- Witness for C10 at a concrete file, range and id. -/
theorem claim_C10_unindexed_witness :
    getAllForRange emptyIndexer "never.ts" ⟨⟨0, 0⟩, ⟨0, 0⟩⟩ = []
    ∧ (∃ msg, indexerGet emptyIndexer "never.ts" "abc" = .error msg) := by
  have h := claim_C10_unindexed "never.ts" ⟨⟨0, 0⟩, ⟨0, 0⟩⟩ "abc"
  exact ⟨h.1, (h.2.2.2.2 emptyIndexer).mpr (by simp [emptyIndexer])⟩

-- ── claim C5 ──

/-- A well-formed position order fact: if `p ≤ q` lexicographically then `q`
is not strictly before `p`. -/
theorem posLtB_false_of_posLeB {p q : Pos} (h : posLeB p q = true) :
    posLtB q p = false := by
  cases hb : posLtB q p with
  | false => rfl
  | true =>
    exfalso
    simp only [posLeB, Bool.or_eq_true, Bool.and_eq_true, decide_eq_true_eq,
      beq_iff_eq] at h
    simp only [posLtB, Bool.or_eq_true, Bool.and_eq_true, decide_eq_true_eq,
      beq_iff_eq] at hb
    omega

/-- A range intersected with itself is defined whenever the range is
well-formed (start not after end). -/
theorem rangeIntersection_self {r : Rng} (h : posLeB r.start r.stop = true) :
    (rangeIntersection r r).isSome = true := by
  unfold rangeIntersection posMax posMin
  simp only [ite_self]
  rw [posLtB_false_of_posLeB h]
  simp

/-- C5: every text returned by `getAllForRange` belongs to a stored directive
whose bound range intersects the query range (no false positives), and every
stored directive whose well-formed bound range exactly equals the query range
has its text among the results (no false negatives, including zero-length
ranges such as `(0,0)-(0,0)`). -/
theorem claim_C5_getAllForRange (m : IndexerMap) (file : String) (q : Rng) :
    (∀ t ∈ getAllForRange m file q,
      ∃ d ∈ (m file).getD [], d.text = t
        ∧ (rangeIntersection d.range q).isSome = true)
    ∧ (∀ d ∈ (m file).getD [], d.range = q → posLeB q.start q.stop = true →
        d.text ∈ getAllForRange m file q) := by
  constructor
  · intro t ht
    unfold getAllForRange at ht
    obtain ⟨d, hd, hdt⟩ := List.mem_map.mp ht
    obtain ⟨hdmem, hdp⟩ := List.mem_filter.mp hd
    exact ⟨d, hdmem, hdt, hdp⟩
  · intro d hd hrange hvalid
    unfold getAllForRange
    apply List.mem_map.mpr
    refine ⟨d, List.mem_filter.mpr ⟨hd, ?_⟩, rfl⟩
    rw [hrange]
    exact rangeIntersection_self hvalid

/-- The stored state used by the C5 witness: one zero-length directive. -/
def mWitness : IndexerMap :=
  indexerSet emptyIndexer "w.ts"
    [⟨"w.ts", ⟨⟨0, 0⟩, ⟨0, 0⟩⟩, "global rule", none⟩]

/-- Witness for C5 at a zero-length directive range equal to the query. -/
theorem claim_C5_getAllForRange_witness :
    "global rule" ∈ getAllForRange mWitness "w.ts" ⟨⟨0, 0⟩, ⟨0, 0⟩⟩ :=
  (claim_C5_getAllForRange mWitness "w.ts" ⟨⟨0, 0⟩, ⟨0, 0⟩⟩).2
    ⟨"w.ts", ⟨⟨0, 0⟩, ⟨0, 0⟩⟩, "global rule", none⟩ (by decide) rfl (by decide)

-- ── claim C1 ──

/-- The sum of per-item token estimates over a context list. -/
def sumEst (items : List ContextItem) : Nat :=
  (items.map fun i => estimateTokens i.content).sum

/-- `calculateTokens` recomputes exactly the sum of per-item estimates. -/
theorem calculateTokens_eq_sumEst (items : List ContextItem) :
    calculateTokens items = sumEst items := by
  have aux : ∀ (l : List ContextItem) (n : Nat),
      l.foldl (fun total item => total + estimateTokens item.content) n
        = n + sumEst l := by
    intro l
    induction l with
    | nil => intro n; simp [sumEst]
    | cons x xs ih =>
      intro n
      simp only [List.foldl_cons, ih, sumEst, List.map_cons, List.sum_cons]
      omega
  have := aux items 0
  simpa [calculateTokens] using this

/-- Truncation never changes an item's importance. -/
theorem truncateContent_importance {item : ContextItem} {mt : Nat}
    {tr : ContextItem} (h : truncateContent item mt = some tr) :
    tr.importance = item.importance := by
  unfold truncateContent at h
  split at h
  · exact Option.noConfusion h
  · dsimp only at h
    split at h
    · injection h with h
      rw [← h]
    · injection h with h
      rw [← h]

/-- Truncation never changes an item's file. -/
theorem truncateContent_file {item : ContextItem} {mt : Nat}
    {tr : ContextItem} (h : truncateContent item mt = some tr) :
    tr.file = item.file := by
  unfold truncateContent at h
  split at h
  · exact Option.noConfusion h
  · dsimp only at h
    split at h
    · injection h with h
      rw [← h]
    · injection h with h
      rw [← h]

/-- The invariant of the admission loop: either everything admitted fits the
budget together with the tokens already counted, or the result ends in a
single item admitted through the truncation branch (importance above 0.8)
after a fitting initial segment. -/
theorem optimizeGo_budget (maxT : Nat) :
    ∀ (l : List ContextItem) (tc : Nat), tc ≤ maxT →
      tc + sumEst (optimizeGo maxT l tc) ≤ maxT
      ∨ ∃ ini last, optimizeGo maxT l tc = ini ++ [last]
          ∧ tc + sumEst ini ≤ maxT ∧ mkRat 8 10 < last.importance := by
  intro l
  induction l with
  | nil =>
    intro tc htc
    left
    simpa [optimizeGo, sumEst] using htc
  | cons item rest ih =>
    intro tc htc
    by_cases hfit : tc + estimateTokens item.content ≤ maxT
    · have hgo : optimizeGo maxT (item :: rest) tc
          = item :: optimizeGo maxT rest (tc + estimateTokens item.content) := by
        simp [optimizeGo, hfit]
      rcases ih (tc + estimateTokens item.content) hfit with hle | ⟨ini, last, heq, hini, himp⟩
      · left
        rw [hgo]
        simp only [sumEst, List.map_cons, List.sum_cons] at hle ⊢
        omega
      · right
        refine ⟨item :: ini, last, ?_, ?_, himp⟩
        · rw [hgo, heq]
          rfl
        · simp only [sumEst, List.map_cons, List.sum_cons] at hini ⊢
          omega
    · by_cases himp : mkRat 8 10 < item.importance
      · cases htr : truncateContent item (maxT - tc) with
        | some tr =>
          right
          refine ⟨[], tr, ?_, ?_, ?_⟩
          · simp [optimizeGo, hfit, himp, htr]
          · simpa [sumEst] using htc
          · rw [truncateContent_importance htr]
            exact himp
        | none =>
          have hgo : optimizeGo maxT (item :: rest) tc = optimizeGo maxT rest tc := by
            simp [optimizeGo, hfit, himp, htr]
          rw [hgo]
          exact ih tc htc
      · have hgo : optimizeGo maxT (item :: rest) tc = optimizeGo maxT rest tc := by
          simp [optimizeGo, hfit, himp]
        rw [hgo]
        exact ih tc htc

/-- C1 (amended): after step 6, the sum of per-item token estimates of all
items admitted by plain fitting never exceeds the budget, and at most one
final item is admitted through the truncation branch, which is taken only
when its importance exceeds 0.8 — but that item's estimate may exceed the
remaining budget (truncation bounds the line count, not the character-based
estimate); `totalTokens` is then recomputed as exactly the sum of per-item
estimates over the final admitted set. -/
theorem claim_C1_budget (maxT : Nat) (items : List ContextItem) :
    calculateTokens (optimizeContextForTokenLimit maxT items)
      = sumEst (optimizeContextForTokenLimit maxT items)
    ∧ (sumEst (optimizeContextForTokenLimit maxT items) ≤ maxT
       ∨ ∃ ini last, optimizeContextForTokenLimit maxT items = ini ++ [last]
          ∧ sumEst ini ≤ maxT ∧ mkRat 8 10 < last.importance)
    ∧ (∀ (env : AssembleEnv) (hist : List ConversationTurn),
        (collectEnhancedContext maxT env hist).totalTokens
          = calculateTokens (collectEnhancedContext maxT env hist).items) := by
  refine ⟨calculateTokens_eq_sumEst _, ?_, fun env hist => rfl⟩
  have h := optimizeGo_budget maxT (sortDesc items) 0 (Nat.zero_le _)
  unfold optimizeContextForTokenLimit
  rcases h with hle | ⟨ini, last, heq, hini, himp⟩
  · left
    simpa using hle
  · right
    exact ⟨ini, last, heq, by simpa using hini, himp⟩

/-- Five 100-character lines: 504 characters, hence an estimate of 126
tokens, but only 5 lines. -/
def contentC1 : String :=
  String.intercalate "\n" (List.replicate 5 (String.mk (List.replicate 100 'a')))

/-- A single high-importance item whose estimate exceeds a budget of 100. -/
def itemC1 : ContextItem :=
  ⟨"big.ts", ⟨⟨0, 0⟩, ⟨5, 0⟩⟩, contentC1, mkRat 9 10, .current, none⟩

set_option maxRecDepth 8000 in
/-- C1 counterexample: with budget 100, the only item (importance 0.9,
estimate 126) does not fit, enters the truncation branch, and is returned
unchanged because its 5 lines are within the 10-line quota — so the final
context's recomputed token total is 126, exceeding the budget 100.  The
truncated item is *not* constructed to stay within the remaining budget. -/
theorem claim_C1_counterexample :
    estimateTokens itemC1.content = 126
    ∧ itemC1.importance = mkRat 9 10
    ∧ calculateTokens (optimizeContextForTokenLimit 100 [itemC1]) = 126
    ∧ (optimizeContextForTokenLimit 100 [itemC1]).length = 1
    ∧ 100 < calculateTokens (optimizeContextForTokenLimit 100 [itemC1]) := by
  refine ⟨by decide, by decide, by decide, by decide, by decide⟩

-- ── claim C2 ──

/-- No two items of the list share the same `file` value. -/
def distinctFiles (l : List ContextItem) : Prop :=
  l.Pairwise fun a b => a.file ≠ b.file

/-- Insertion keeps the multiset of items. -/
theorem insertDesc_perm (x : ContextItem) (l : List ContextItem) :
    (insertDesc x l).Perm (x :: l) := by
  induction l with
  | nil => exact List.Perm.refl _
  | cons y ys ih =>
    unfold insertDesc
    by_cases h : y.importance ≤ x.importance
    · simp only [h, if_true]
      exact List.Perm.refl _
    · simp only [h, if_false]
      exact (ih.cons y).trans (List.Perm.swap x y ys)

/-- The stable sort keeps the multiset of items. -/
theorem sortDesc_perm (l : List ContextItem) : (sortDesc l).Perm l := by
  induction l with
  | nil => exact List.Perm.refl _
  | cons x xs ih =>
    unfold sortDesc
    exact (insertDesc_perm x (sortDesc xs)).trans (ih.cons x)

/-- Members of the sorted list are members of the input. -/
theorem mem_sortDesc {y : ContextItem} {l : List ContextItem}
    (h : y ∈ sortDesc l) : y ∈ l :=
  (sortDesc_perm l).mem_iff.mp h

/-- Admission through `shouldIncludeContext` only succeeds when no admitted
item already has the candidate's file. -/
theorem shouldInclude_no_dup {c : ContextItem} {ctx : List ContextItem}
    (h : shouldIncludeContext c ctx = true) :
    ∀ e ∈ ctx, e.file ≠ c.file := by
  intro e he heq
  unfold shouldIncludeContext at h
  by_cases hany : ctx.any (fun existing => existing.file == c.file) = true
  · simp [hany] at h
  · exact hany (List.any_eq_true.mpr ⟨e, he, by simp [heq]⟩)

/-- `admitCands` preserves file-distinctness for any file-preserving
adjustment. -/
theorem admitCands_distinct (cands : List (Option ContextItem))
    (adjust : ContextItem → ContextItem)
    (hadj : ∀ c, (adjust c).file = c.file) :
    ∀ ctx : List ContextItem, distinctFiles ctx →
      distinctFiles (admitCands ctx cands adjust) := by
  induction cands with
  | nil => intro ctx h; exact h
  | cons oc cands ih =>
    intro ctx h
    have hstep : distinctFiles
        (match oc with
          | some c => if shouldIncludeContext c ctx then ctx ++ [adjust c] else ctx
          | none => ctx) := by
      match oc with
      | none => exact h
      | some c =>
        by_cases hinc : shouldIncludeContext c ctx = true
        · simp only [hinc, if_true]
          unfold distinctFiles
          rw [List.pairwise_append]
          refine ⟨h, List.pairwise_singleton _ _, ?_⟩
          intro a ha b hb
          simp only [List.mem_singleton] at hb
          subst hb
          rw [hadj]
          exact shouldInclude_no_dup hinc a ha
        · simp only [hinc, if_false]
          exact h
    exact ih _ hstep

/-- Every item produced by the admission loop of step 6 carries the file of
some input item (truncation does not change files). -/
theorem optimizeGo_files (maxT : Nat) :
    ∀ (l : List ContextItem) (tc : Nat) (y : ContextItem),
      y ∈ optimizeGo maxT l tc → ∃ z ∈ l, y.file = z.file := by
  intro l
  induction l with
  | nil => intro tc y hy; simp [optimizeGo] at hy
  | cons item rest ih =>
    intro tc y hy
    by_cases hfit : tc + estimateTokens item.content ≤ maxT
    · rw [show optimizeGo maxT (item :: rest) tc
          = item :: optimizeGo maxT rest (tc + estimateTokens item.content) by
        simp [optimizeGo, hfit]] at hy
      rcases List.mem_cons.mp hy with rfl | hy'
      · exact ⟨y, List.mem_cons_self _ _, rfl⟩
      · obtain ⟨z, hz, hfz⟩ := ih _ _ hy'
        exact ⟨z, List.mem_cons_of_mem _ hz, hfz⟩
    · by_cases himp : mkRat 8 10 < item.importance
      · cases htr : truncateContent item (maxT - tc) with
        | some tr =>
          rw [show optimizeGo maxT (item :: rest) tc = [tr] by
            simp [optimizeGo, hfit, himp, htr]] at hy
          simp only [List.mem_singleton] at hy
          subst hy
          exact ⟨item, List.mem_cons_self _ _, truncateContent_file htr⟩
        | none =>
          rw [show optimizeGo maxT (item :: rest) tc = optimizeGo maxT rest tc by
            simp [optimizeGo, hfit, himp, htr]] at hy
          obtain ⟨z, hz, hfz⟩ := ih _ _ hy
          exact ⟨z, List.mem_cons_of_mem _ hz, hfz⟩
      · rw [show optimizeGo maxT (item :: rest) tc = optimizeGo maxT rest tc by
          simp [optimizeGo, hfit, himp]] at hy
        obtain ⟨z, hz, hfz⟩ := ih _ _ hy
        exact ⟨z, List.mem_cons_of_mem _ hz, hfz⟩

/-- The admission loop of step 6 preserves file-distinctness. -/
theorem optimizeGo_distinct (maxT : Nat) :
    ∀ (l : List ContextItem) (tc : Nat), distinctFiles l →
      distinctFiles (optimizeGo maxT l tc) := by
  intro l
  induction l with
  | nil => intro tc _; simp [optimizeGo, distinctFiles]
  | cons item rest ih =>
    intro tc h
    unfold distinctFiles at h
    rw [List.pairwise_cons] at h
    obtain ⟨hhead, htail⟩ := h
    by_cases hfit : tc + estimateTokens item.content ≤ maxT
    · rw [show optimizeGo maxT (item :: rest) tc
          = item :: optimizeGo maxT rest (tc + estimateTokens item.content) by
        simp [optimizeGo, hfit]]
      unfold distinctFiles
      rw [List.pairwise_cons]
      refine ⟨?_, ih _ htail⟩
      intro y hy
      obtain ⟨z, hz, hfz⟩ := optimizeGo_files maxT rest _ y hy
      rw [hfz]
      exact hhead z hz
    · by_cases himp : mkRat 8 10 < item.importance
      · cases htr : truncateContent item (maxT - tc) with
        | some tr =>
          rw [show optimizeGo maxT (item :: rest) tc = [tr] by
            simp [optimizeGo, hfit, himp, htr]]
          exact List.pairwise_singleton _ _
        | none =>
          rw [show optimizeGo maxT (item :: rest) tc = optimizeGo maxT rest tc by
            simp [optimizeGo, hfit, himp, htr]]
          exact ih _ htail
      · rw [show optimizeGo maxT (item :: rest) tc = optimizeGo maxT rest tc by
          simp [optimizeGo, hfit, himp]]
        exact ih _ htail

/-- Step 6 preserves file-distinctness. -/
theorem optimize_distinct (maxT : Nat) (items : List ContextItem)
    (h : distinctFiles items) :
    distinctFiles (optimizeContextForTokenLimit maxT items) := by
  unfold optimizeContextForTokenLimit
  apply optimizeGo_distinct
  unfold distinctFiles
  refine ((sortDesc_perm items).pairwise_iff ?_).mpr h
  intro a b hab
  exact hab.symm

/-- C2 (amended): items admitted through `shouldIncludeContext` (the current
item, the definition and reference items of step 2 and the related-file items
of step 3) never repeat a file; when no recently-modified items are appended
in step 4 (the one admission path that bypasses the check), the assembled
`ProjectContext` has no two items with the same `file` value. -/
theorem claim_C2_dedup (maxT : Nat) (env : AssembleEnv)
    (hist : List ConversationTurn) (hrec : env.recentItems = []) :
    distinctFiles (collectEnhancedContext maxT env hist).items := by
  unfold collectEnhancedContext
  simp only [hrec, List.append_nil]
  apply optimize_distinct
  apply admitCands_distinct _ _ (fun c => rfl)
  have h1 : distinctFiles
      (match env.currentContext with
        | some c => [c]
        | none => []) := by
    match env.currentContext with
    | some c => exact List.pairwise_singleton _ _
    | none => exact List.Pairwise.nil
  by_cases hcur : env.currentContext.isSome
  · simp only [hcur, if_true]
    refine admitCands_distinct _ _ ?_ _ (admitCands_distinct _ _ ?_ _ h1)
    · intro c; rfl
    · intro c; rfl
  · simp only [hcur, if_false]
    exact h1

/-- The current-file item used by the C2 witness and counterexample. -/
def curW : ContextItem :=
  getCurrentFileContext "cur.ts" ⟨⟨0, 0⟩, ⟨2, 0⟩⟩ "function processData() {}" none

/-- Witness environment for C2: a current item and one related candidate,
no recently-modified items. -/
def envC2W : AssembleEnv :=
  ⟨some curW, [], [],
    [some (getFileContext "rel.ts" 1 "let y = 2" "tidy" none 1)], []⟩

/-- Witness for C2 at a concrete environment without recent items. -/
theorem claim_C2_dedup_witness :
    distinctFiles (collectEnhancedContext 8000 envC2W []).items :=
  claim_C2_dedup 8000 envC2W [] rfl

/-- A recently-modified item for the same file as the current item, as
`getRecentlyModifiedContext` would produce it (importance 0.5 × 0.7). -/
def recDupW : ContextItem :=
  ⟨"cur.ts", ⟨⟨0, 0⟩, ⟨1, 0⟩⟩, "let y = 2", mkRat 1 2 * mkRat 7 10, .related, none⟩

/-- Counterexample environment for C2: the recently-modified file equals the
current file. -/
def envC2dup : AssembleEnv := ⟨some curW, [], [], [], [recDupW]⟩

unseal Rat.mul Rat.add in
/-- C2 counterexample: a recently-modified item (step 4 bypasses
`shouldIncludeContext`) duplicates the current item's file, and both survive
step 6, so the final `ProjectContext` holds two items with file "cur.ts". -/
theorem claim_C2_counterexample :
    ((collectEnhancedContext 8000 envC2dup []).items.map fun i => i.file)
      = ["cur.ts", "cur.ts"] := by decide

-- ── claim C6 ──

/-- C6 (amended): the current-file ContextItem is created with importance
exactly 1.0 and type "current", and after the importance-descending sort and
budget fitting of step 6 it is the first element whenever it fits the budget
and every other item's importance is at most 1.0; definition items, however,
receive a +0.3 boost that can lift their importance above 1.0 (up to 1.3), in
which case they precede the current item. -/
theorem claim_C6_current_first :
    (∀ (file : String) (range : Rng) (content : String)
        (symbols : Option (List DocSymbol)),
      (getCurrentFileContext file range content symbols).importance = 1
      ∧ (getCurrentFileContext file range content symbols).type = .current)
    ∧ (∀ (maxT : Nat) (cur : ContextItem) (rest : List ContextItem),
        cur.importance = 1 →
        (∀ r ∈ rest, r.importance ≤ 1) →
        estimateTokens cur.content ≤ maxT →
        (optimizeContextForTokenLimit maxT (cur :: rest)).head? = some cur) := by
  constructor
  · intro file range content symbols
    exact ⟨rfl, rfl⟩
  · intro maxT cur rest hcur hrest hfit
    unfold optimizeContextForTokenLimit
    have hsorted : sortDesc (cur :: rest) = cur :: sortDesc rest := by
      show insertDesc cur (sortDesc rest) = cur :: sortDesc rest
      cases hs : sortDesc rest with
      | nil => rfl
      | cons y ys =>
        have hy : y.importance ≤ cur.importance := by
          rw [hcur]
          exact hrest y (mem_sortDesc (hs ▸ List.mem_cons_self y ys))
        simp [insertDesc, hy]
    rw [hsorted]
    have : optimizeGo maxT (cur :: sortDesc rest) 0
        = cur :: optimizeGo maxT (sortDesc rest) (0 + estimateTokens cur.content) := by
      simp [optimizeGo, hfit]
    rw [this]
    rfl

/-- The current-file item of the C6 counterexample (importance 1.0). -/
def curC6 : ContextItem :=
  getCurrentFileContext "cur.ts" ⟨⟨0, 0⟩, ⟨2, 0⟩⟩ "function processData() {}" none

/-- A definition item as `getFileContextForRange` builds it: base 0.6, +0.2
because the intent "add error handling" occurs in the content, +0.2 because
the file has a directive — importance 1.0 before the +0.3 definition boost. -/
def defC6 : ContextItem :=
  getFileContextForRange "def.ts" ⟨⟨0, 0⟩, ⟨3, 0⟩⟩ "// add error handling here"
    "add error handling" none 1

/-- Counterexample environment for C6: one definition result alongside the
current item. -/
def envC6 : AssembleEnv := ⟨some curC6, [some defC6], [], [], []⟩

unseal Rat.mul Rat.add in
/-- C6 counterexample: the definition item is boosted to importance 1.3 and
sorts before the current item (importance 1.0), so the first element of the
assembled items is not the current item. -/
theorem claim_C6_counterexample :
    curC6.importance = 1
    ∧ curC6.type = .current
    ∧ ((collectEnhancedContext 8000 envC6 []).items.map fun i => (i.file, i.importance))
        = [("def.ts", mkRat 13 10), ("cur.ts", 1)] := by
  refine ⟨by decide, by decide, by decide⟩

unseal Rat.mul Rat.add in
/-- Witness for C6 at a concrete current item and a lower-importance rest. -/
theorem claim_C6_current_first_witness :
    (optimizeContextForTokenLimit 8000 [curW,
      getFileContext "rel.ts" 1 "let y = 2" "tidy" none 1]).head? = some curW :=
  claim_C6_current_first.2 8000 curW
    [getFileContext "rel.ts" 1 "let y = 2" "tidy" none 1]
    rfl (by decide) (by decide)

-- ── claim C3 ──

/-- C3: a line-form or prompt-form directive on a scanned line `i` is bound to
`bindRange doc oracle i`; that range is the range of the first symbol in the
flattened symbol tree whose start line is strictly greater than `i`, and when
no such symbol exists, or the Symbol Oracle is unavailable, it is the range
from line `i+1` column 0 to end-of-document.  The scan is a total function,
so it completes without failing in every case. -/
theorem claim_C3_binding (doc : Doc) (oracle : Option (List DocSymbol))
    (gen : Nat → String) (fuel i cnt : Nat) :
    (i < doc.lineCount →
      (∀ p oid, promptSearch (doc.line i) = some (p, oid) →
        ∃ rest, scanLoop doc oracle gen (fuel + 1) i cnt =
          ⟨doc.fileName, bindRange doc oracle i, p, some (oid.getD (gen cnt))⟩
            :: rest)
      ∧ (∀ t, promptSearch (doc.line i) = none → lineSearch (doc.line i) = some t →
        ∃ rest, scanLoop doc oracle gen (fuel + 1) i cnt =
          ⟨doc.fileName, bindRange doc oracle i, t, none⟩ :: rest))
    ∧ (oracle = none → bindRange doc oracle i = ⟨⟨i + 1, 0⟩, ⟨doc.lineCount, 0⟩⟩)
    ∧ (∀ syms, oracle = some syms →
        (flattenList syms).find? (fun s => decide (i < s.range.start.line)) = none →
        bindRange doc oracle i = ⟨⟨i + 1, 0⟩, ⟨doc.lineCount, 0⟩⟩)
    ∧ (∀ syms sy, oracle = some syms →
        (flattenList syms).find? (fun s => decide (i < s.range.start.line)) = some sy →
        bindRange doc oracle i = sy.range) := by
  refine ⟨fun hi => ⟨?_, ?_⟩, ?_, ?_, ?_⟩
  · intro p oid hp
    refine ⟨scanLoop doc oracle gen fuel (i + 1)
      (if oid.isSome then cnt else cnt + 1), ?_⟩
    simp [scanLoop, hi, hp]
  · intro t hp hl
    refine ⟨scanLoop doc oracle gen fuel (i + 1) cnt, ?_⟩
    simp [scanLoop, hi, hp, hl]
  · intro h
    subst h
    simp [bindRange, nextTopSymbolRange]
  · intro syms h hfind
    subst h
    simp [bindRange, nextTopSymbolRange, hfind]
  · intro syms sy h hfind
    subst h
    simp [bindRange, nextTopSymbolRange, hfind]

/-- The generator stream of `crypto.randomUUID` values used in concrete
documents. -/
def gen0 : Nat → String := fun n => "uuid-" ++ toString n

/-- A document with a line-form directive followed by a symbol declaration. -/
def docC3 : Doc := ⟨"c3.ts", ["// @ai: tidy", "function g() {}", ""]⟩

/-- The symbol tree the Symbol Oracle returns for `docC3`: one symbol
starting on line 1. -/
def symC3 : DocSymbol := .mk ⟨⟨1, 0⟩, ⟨1, 15⟩⟩ []

/-- Witness for C3 at a concrete document: with the oracle available the
directive binds to the following symbol's range; with the oracle unavailable
it binds to line `i+1` through end-of-document. -/
theorem claim_C3_binding_witness :
    (∃ rest, scanLoop docC3 (some [symC3]) gen0 3 0 0 =
      ⟨docC3.fileName, bindRange docC3 (some [symC3]) 0, "tidy", none⟩ :: rest)
    ∧ bindRange docC3 (some [symC3]) 0 = symC3.range
    ∧ bindRange docC3 none 0 = ⟨⟨1, 0⟩, ⟨3, 0⟩⟩ := by
  have h := claim_C3_binding docC3 (some [symC3]) gen0 2 0 0
  have h' := claim_C3_binding docC3 none gen0 2 0 0
  exact ⟨(h.1 (by decide)).2 "tidy" (by decide) (by decide),
    h.2.2.2 [symC3] symC3 rfl rfl,
    h'.2.1 rfl⟩

-- ── claim C4 ──

/-- C4 (amended): a global-block directive is bound to the zero-length range
`(0,0)-(0,0)` and its text is the immediately following contiguous
comment-marked lines with the marker stripped, joined by newlines; however
scanning resumes at the *second* line after the block's comment body — the
loop sets `i = j` on the first non-comment line `j` and then increments — so
a directive beginning on that first non-comment line is skipped, not
recognized. -/
theorem claim_C4_global (doc : Doc) (oracle : Option (List DocSymbol))
    (gen : Nat → String) (fuel i cnt : Nat) (hi : i < doc.lineCount)
    (hp : promptSearch (doc.line i) = none) (hl : lineSearch (doc.line i) = none)
    (hg : globalSearch (doc.line i) = true) :
    scanLoop doc oracle gen (fuel + 1) i cnt =
      ⟨doc.fileName, ⟨⟨0, 0⟩, ⟨0, 0⟩⟩,
        String.intercalate "\n"
          (((doc.lines.drop (i + 1)).takeWhile commentMarked).map stripMarker),
        none⟩
      :: scanLoop doc oracle gen fuel
          (i + 1 + ((doc.lines.drop (i + 1)).takeWhile commentMarked).length + 1)
          cnt := by
  simp [scanLoop, hi, hp, hl, hg]

/-- A document whose global block is followed (on the first non-comment line,
line 2) by an inline line-form directive. -/
def docC4 : Doc := ⟨"g.ts", ["// @ai-global:", "// body", "let x = 1 // @ai: mark"]⟩

/-- C4 counterexample: line 2 of `docC4` is the first line after the global
block and carries a line-form directive ("mark"), yet the scan yields only
the global directive — the directive on the first non-comment line after the
block is not recognized, because scanning resumes one line past it. -/
theorem claim_C4_counterexample :
    scanDoc docC4 none gen0 = [⟨"g.ts", ⟨⟨0, 0⟩, ⟨0, 0⟩⟩, "body", none⟩]
    ∧ lineSearch (docC4.line 2) = some "mark"
    ∧ docC4.lineCount = 3 := by
  refine ⟨by decide, by decide, by decide⟩

/-- Witness for C4 at the concrete document `docC4`. -/
theorem claim_C4_global_witness :
    scanLoop docC4 none gen0 4 0 0 =
      ⟨"g.ts", ⟨⟨0, 0⟩, ⟨0, 0⟩⟩, "body", none⟩ :: scanLoop docC4 none gen0 3 3 0 := by
  have h := claim_C4_global docC4 none gen0 3 0 0 (by decide) (by decide)
    (by decide) (by decide)
  exact h.trans (by decide)

-- ── claim C9 ──

/-- C9: a prompt-form directive whose source text carries an explicit id is
scanned into a directive with exactly that id and with its text taken from
the current source, independent of the uuid generator and of its state — so
every re-scan reproduces the directive's identity; a prompt-form directive
without an explicit id receives the generator's next freshly generated value;
and `get` succeeds for any id carried by a directive of the freshly stored
scan list. -/
theorem claim_C9_id_preserved (doc : Doc) (oracle : Option (List DocSymbol))
    (gen : Nat → String) (fuel i cnt : Nat) :
    (∀ p s, i < doc.lineCount → promptSearch (doc.line i) = some (p, some s) →
      scanLoop doc oracle gen (fuel + 1) i cnt =
        ⟨doc.fileName, bindRange doc oracle i, p, some s⟩
          :: scanLoop doc oracle gen fuel (i + 1) cnt)
    ∧ (∀ p, i < doc.lineCount → promptSearch (doc.line i) = some (p, none) →
      scanLoop doc oracle gen (fuel + 1) i cnt =
        ⟨doc.fileName, bindRange doc oracle i, p, some (gen cnt)⟩
          :: scanLoop doc oracle gen fuel (i + 1) (cnt + 1))
    ∧ (∀ (m : IndexerMap) (dirs : List Directive) (d : Directive) (s : String),
        d ∈ dirs → d.id = some s →
        ∃ t r, indexerGet (indexerSet m doc.fileName dirs) doc.fileName s
          = .ok (t, r)) := by
  refine ⟨?_, ?_, ?_⟩
  · intro p s hi hp
    simp [scanLoop, hi, hp]
  · intro p hi hp
    simp [scanLoop, hi, hp]
  · intro m dirs d s hd hid
    have hstore : (indexerSet m doc.fileName dirs) doc.fileName = some dirs := by
      unfold indexerSet
      simp
    have hfind : (dirs.find? (fun d => d.id == some s)).isSome := by
      rw [List.find?_isSome]
      exact ⟨d, hd, by simp [hid]⟩
    cases hf : dirs.find? (fun d => d.id == some s) with
    | none => rw [hf] at hfind; exact Bool.noConfusion hfind
    | some d' =>
      refine ⟨d'.text, d'.range, ?_⟩
      unfold indexerGet
      rw [hstore]
      simp only [Option.getD_some]
      rw [hf]

/-- A document with an explicit-id prompt directive (line 0) and an id-less
prompt directive (line 2). -/
def docC9 : Doc :=
  ⟨"p.ts", ["// @ai prompt=\"do it\" id=\"ab-12\"", "function f() {}",
    "// @ai prompt=\"later\""]⟩

/-- Witness for C9 at `docC9`: the explicit id "ab-12" survives scanning with
any generator state, the id-less directive takes the generator's next value,
and `get` finds "ab-12" after the scan is stored. -/
theorem claim_C9_id_preserved_witness :
    scanLoop docC9 none gen0 4 0 0 =
      ⟨docC9.fileName, bindRange docC9 none 0, "do it", some "ab-12"⟩
        :: scanLoop docC9 none gen0 3 1 0
    ∧ scanLoop docC9 none gen0 2 2 0 =
      ⟨docC9.fileName, bindRange docC9 none 2, "later", some (gen0 0)⟩
        :: scanLoop docC9 none gen0 1 3 1
    ∧ (∃ t r, indexerGet
        (indexerSet emptyIndexer docC9.fileName (scanDoc docC9 none gen0))
        docC9.fileName "ab-12" = .ok (t, r)) := by
  have h := claim_C9_id_preserved docC9 none gen0 3 0 0
  have h2 := claim_C9_id_preserved docC9 none gen0 1 2 0
  refine ⟨h.1 "do it" "ab-12" (by decide) (by decide),
    h2.2.1 "later" (by decide) (by decide),
    (claim_C9_id_preserved docC9 none gen0 0 0 0).2.2 emptyIndexer
      (scanDoc docC9 none gen0)
      ⟨docC9.fileName, bindRange docC9 none 0, "do it", some "ab-12"⟩ "ab-12"
      (by decide) rfl⟩
